import Mathlib

/-!
Verification development for the hw4 repository (text augmentation for part 1,
NL-to-SQL pipeline for part 2).  Strings are embedded as `List Char`; the
regular-expression cascade of `extract_sql_query` (part-2-code/prompting_utils.py)
is embedded by hand-rolled scanners that reproduce Python `re.search` semantics
(leftmost match, lazy groups, greedy whitespace) for the five concrete patterns
appearing in the source.  Randomized functions (part-1-code/utils.py) are
embedded with explicit oracle streams standing for the outputs of
`random.random`, `random.sample` and `random.choice`; any concrete execution of
the Python code corresponds to one choice of oracles.
-/

namespace Hw4

/-- Backtick character, written via its code point. -/
def btick : Char := '\x60'

/-- Whitespace test matching Python's `\s` / `str.split()` / `str.strip()`
on ASCII input. -/
def isSpace (c : Char) : Bool :=
  c = ' ' || c = '\t' || c = '\n' || c = '\r' || c = '\x0b' || c = '\x0c'

/-- ASCII case-fold table: uppercase letter paired with its lowercase form. -/
def caseFoldPairs : List (Char × Char) :=
  [('A', 'a'), ('B', 'b'), ('C', 'c'), ('D', 'd'), ('E', 'e'), ('F', 'f'),
   ('G', 'g'), ('H', 'h'), ('I', 'i'), ('J', 'j'), ('K', 'k'), ('L', 'l'),
   ('M', 'm'), ('N', 'n'), ('O', 'o'), ('P', 'p'), ('Q', 'q'), ('R', 'r'),
   ('S', 's'), ('T', 't'), ('U', 'u'), ('V', 'v'), ('W', 'w'), ('X', 'x'),
   ('Y', 'y'), ('Z', 'z')]

/-- ASCII lower-casing (models `str.lower()` and `re.IGNORECASE` folding on the
ASCII alphabet, which is the alphabet of every pattern in the source). -/
def lowerChar (c : Char) : Char :=
  (Option.map Prod.snd (caseFoldPairs.find? (fun p => p.1 = c))).getD c

/-- Exact prefix test: the first list occurs at the head of the second. -/
def headMatch : List Char → List Char → Bool
  | [], _ => true
  | _ :: _, [] => false
  | p :: ps, c :: cs => p = c && headMatch ps cs

/-- Case-insensitive prefix test (ASCII folding). -/
def headMatchCI : List Char → List Char → Bool
  | [], _ => true
  | _ :: _, [] => false
  | p :: ps, c :: cs => lowerChar p = lowerChar c && headMatchCI ps cs

/-- Python `str.strip()` on the right only, restricted to whitespace. -/
def dropTrailingSpaces (s : List Char) : List Char :=
  (s.reverse.dropWhile isSpace).reverse

/-- Python `str.strip()`. -/
def pyStrip (s : List Char) : List Char :=
  dropTrailingSpaces (s.dropWhile isSpace)

/-- Python `str.rstrip(';')`. -/
def rstripSemi (s : List Char) : List Char :=
  (s.reverse.dropWhile (fun c => c = ';')).reverse

/-- Scan for the first closing fence: returns the characters before the first
occurrence of three consecutive backticks, or `none` when there is no
occurrence.  This is the text captured by the lazy group in
the patterns of prompting_utils.py lines 20 and 26. -/
def takeUntilTicks : List Char → Option (List Char)
  | [] => none
  | c :: cs =>
    if headMatch [btick, btick, btick] (c :: cs) then some []
    else (takeUntilTicks cs).map (fun t => c :: t)

/-- Pattern 1 of `extract_sql_query` (line 20): leftmost occurrence of a
SQL-tagged fence with a later closing fence; returns the raw captured text.
Mirrors the search semantics of the regex by trying each start position in
order and requiring a closing fence after the tag. -/
def sqlFence : List Char → Option (List Char)
  | [] => none
  | c :: cs =>
    if headMatchCI [btick, btick, btick, 's', 'q', 'l'] (c :: cs) then
      match takeUntilTicks ((c :: cs).drop 6) with
      | some content => some content
      | none => sqlFence cs
    else sqlFence cs

/-- Pattern 2 of `extract_sql_query` (line 26): leftmost generic fenced block. -/
def anyFence : List Char → Option (List Char)
  | [] => none
  | c :: cs =>
    if headMatch [btick, btick, btick] (c :: cs) then
      match takeUntilTicks ((c :: cs).drop 3) with
      | some content => some content
      | none => anyFence cs
    else anyFence cs

/-- Test whether the list starts with a whitespace character. -/
def headSpace : List Char → Bool
  | [] => false
  | c :: _ => isSpace c

/-- Lazy capture of the regex tail `.*?` up to the first terminator of
the alternation `;|\n\n|$` (with `$` also matching just before a final
newline, as in Python without `re.MULTILINE`). -/
def takeUntilTerm : List Char → List Char
  | [] => []
  | [c] => if c = ';' || c = '\n' then [] else [c]
  | c :: c2 :: cs =>
    if c = ';' then []
    else if c = '\n' && c2 = '\n' then []
    else c :: takeUntilTerm (c2 :: cs)

/-- Guard of pattern 3 (line 36) at the current position: the text starts with
`SELECT` (case-insensitively) followed by at least one whitespace character. -/
def selectHere (s : List Char) : Bool :=
  headMatchCI ['s', 'e', 'l', 'e', 'c', 't'] s && headSpace (s.drop 6)

/-- Text captured by the group `(SELECT\s+.*?)` at a position where
`selectHere` holds: the six matched letters, the greedily matched whitespace
run, then the lazily matched tail up to the first terminator. -/
def selectGroup (s : List Char) : List Char :=
  s.take 6 ++ (s.drop 6).takeWhile isSpace
    ++ takeUntilTerm ((s.drop 6).dropWhile isSpace)

/-- Pattern 3 of `extract_sql_query` (line 36): leftmost `SELECT` span. -/
def selectSpan : List Char → Option (List Char)
  | [] => none
  | c :: cs =>
    if selectHere (c :: cs) then some (selectGroup (c :: cs))
    else selectSpan cs

/-- Flattened label alternation of the first regex of pattern 5 (line 48). -/
def labels1 : List (List Char) :=
  [("SQL query:".toList), ("Query:".toList), ("Answer:".toList),
   ("Solution:".toList), ("Result:".toList)]

/-- Flattened label alternation of the second regex of pattern 5 (line 49). -/
def labels2 : List (List Char) :=
  [("Here is the SQL query:".toList), ("Here is the query:".toList),
   ("The SQL query:".toList), ("The query:".toList)]

/-- Flattened label alternation of the fallback `re.sub` (line 63). -/
def fallbackLabels : List (List Char) :=
  [("Here is:".toList), ("The answer is:".toList),
   ("The SQL query is:".toList), ("Query:".toList)]

/-- Pattern 5 search (lines 52-56): leftmost position where one of the labels
matches case-insensitively and is followed, after optional whitespace, by a
`SELECT` span; captures the span.  The labels of each alternation are pairwise
incompatible at a fixed position, so matching any one of them is faithful to
the regex alternation. -/
def labeledSelect (labels : List (List Char)) : List Char → Option (List Char)
  | [] => none
  | c :: cs =>
    match labels.findSome?
        (fun lab => if headMatchCI lab (c :: cs) then some lab.length else none) with
    | some n =>
      let rest := ((c :: cs).drop n).dropWhile isSpace
      if selectHere rest then some (selectGroup rest)
      else labeledSelect labels cs
    | none => labeledSelect labels cs

/-- Anchored `re.sub(r'^(?:...):\s*', '', s)` of the fallback branch (line 63):
when a label matches at the start, remove it and the following whitespace. -/
def stripLabel (labels : List (List Char)) (s : List Char) : List Char :=
  match labels.findSome?
      (fun lab => if headMatchCI lab s then some lab.length else none) with
  | some n => (s.drop n).dropWhile isSpace
  | none => s

/-- Fallback branch of `extract_sql_query` (lines 58-65). -/
def extractFallback (s : List Char) : List Char :=
  pyStrip (rstripSemi (pyStrip (stripLabel fallbackLabels (pyStrip s))))

/-- Pattern 5 then fallback (lines 46-65). -/
def extractP5 (s : List Char) : List Char :=
  match labeledSelect labels1 s with
  | some g => pyStrip g
  | none =>
    match labeledSelect labels2 s with
    | some g => pyStrip g
    | none => extractFallback s

/-- Pattern 4 then later patterns (lines 41-65). -/
def extractP4 (s : List Char) : List Char :=
  if headMatchCI ['s', 'e', 'l', 'e', 'c', 't'] (pyStrip s) then
    pyStrip (rstripSemi (pyStrip s))
  else extractP5 s

/-- Pattern 3 then later patterns (lines 34-65). -/
def extractP3 (s : List Char) : List Char :=
  match selectSpan s with
  | some g => pyStrip g
  | none => extractP4 s

/-- Embedding of `extract_sql_query` (prompting_utils.py lines 13-65). -/
def extract_sql_query (s : List Char) : List Char :=
  match sqlFence s with
  | some content => pyStrip content
  | none =>
    match anyFence s with
    | some content =>
      let ct := pyStrip content
      if headMatchCI ['s', 'e', 'l', 'e', 'c', 't'] ct then ct else extractP3 s
    | none => extractP3 s

/-! Part 1: text perturbation module (part-1-code/utils.py). -/

/-- Python `str.split()` with no argument: split on whitespace runs, dropping
empty pieces. -/
def pySplit : List Char → List (List Char)
  | [] => []
  | c :: cs =>
    if isSpace c then pySplit cs
    else
      (c :: cs.takeWhile (fun x => !isSpace x))
        :: pySplit (cs.dropWhile (fun x => !isSpace x))
termination_by l => l.length
decreasing_by
  · simp only [List.length_cons]; omega
  · have h2 : (cs.dropWhile (fun x => !isSpace x)).length ≤ cs.length :=
      (List.dropWhile_sublist _).length_le
    simp only [List.length_cons]
    omega

/-- Python `' '.join(words)`. -/
def joinSpace : List (List Char) → List Char
  | [] => []
  | [w] => w
  | w :: w2 :: ws => w ++ ' ' :: joinSpace (w2 :: ws)

/-- Table underlying the `keyboard_neighbors` dict (utils.py lines 81-108). -/
def kbPairs : List (Char × List Char) :=
  [('a', ['s', 'q', 'w', 'z']),
   ('b', ['v', 'g', 'h', 'n']),
   ('c', ['x', 'd', 'f', 'v']),
   ('d', ['s', 'e', 'r', 'f', 'c', 'x']),
   ('e', ['w', 's', 'd', 'r']),
   ('f', ['d', 'r', 't', 'g', 'v', 'c']),
   ('g', ['f', 't', 'y', 'h', 'b', 'v']),
   ('h', ['g', 'y', 'u', 'j', 'n', 'b']),
   ('i', ['u', 'j', 'k', 'o']),
   ('j', ['h', 'u', 'i', 'k', 'n', 'm']),
   ('k', ['j', 'i', 'o', 'l', 'm']),
   ('l', ['k', 'o', 'p']),
   ('m', ['n', 'j', 'k']),
   ('n', ['b', 'h', 'j', 'm']),
   ('o', ['i', 'k', 'l', 'p']),
   ('p', ['o', 'l']),
   ('q', ['w', 'a']),
   ('r', ['e', 'd', 'f', 't']),
   ('s', ['a', 'w', 'e', 'd', 'x', 'z']),
   ('t', ['r', 'f', 'g', 'y']),
   ('u', ['y', 'h', 'j', 'i']),
   ('v', ['c', 'f', 'g', 'b']),
   ('w', ['q', 'a', 's', 'e']),
   ('x', ['z', 's', 'd', 'c']),
   ('y', ['t', 'g', 'h', 'u']),
   ('z', ['a', 's', 'x'])]

/-- Lookup in the `keyboard_neighbors` dict; a key outside the dict yields
`none`, mirroring the `c in keyboard_neighbors` test. -/
def keyboard_neighbors (c : Char) : Option (List Char) :=
  Option.map Prod.snd (kbPairs.find? (fun p => p.1 = c))

/-- Model of `random.choice(l)` for a nonempty list: the oracle value `k`
selects the element at index `k % l.length`.  Every element of `l` is a
possible outcome and every outcome is an element of `l`. -/
def pyChoice (k : Nat) (l : List Char) : Char :=
  l.getD (k % l.length) 'a'

/-- Model of `random.choice` over a list of words. -/
def pyChoiceW (k : Nat) (l : List (List Char)) : List Char :=
  l.getD (k % l.length) []

/-- Model of `int(n * 0.4)` for the word lengths arising here (utils.py
line 117): truncation of two fifths of `n`. -/
def int04 (n : Nat) : Nat := 2 * n / 5

/-- Number of typos per selected word, `max(1, int(len(chars) * 0.4))`
(utils.py line 117 with the default `typo_per_word=0.4`). -/
def num_typos (n : Nat) : Nat := max 1 (int04 n)

/-- One iteration of the typo loop (utils.py lines 120-123): lower-case the
character at `idx`, and when it is a key of the dict, overwrite position `idx`
with a chosen neighbor.  Indices produced by `random.sample` in the source are
always in range, so the default of `getD` is never exercised on real
executions. -/
def typoAt (pickj : Nat) (chars : List Char) (idx : Nat) : List Char :=
  match keyboard_neighbors (lowerChar (chars.getD idx 'a')) with
  | some nbrs => chars.set idx (pyChoice pickj nbrs)
  | none => chars

/-- Inner loop of `typo_transform` (utils.py lines 120-124): apply one typo at
each sampled index; `pick j` is the oracle for the `random.choice` of the
`j`-th iteration. -/
def applyTypos (pick : Nat → Nat) : Nat → List Nat → List Char → List Char
  | _, [], chars => chars
  | j, idx :: rest, chars => applyTypos pick (j + 1) rest (typoAt (pick j) chars idx)

/-- Word-list transformation of `typo_transform` (utils.py lines 112-125):
the `k`-th word is perturbed when `random.random() < prob` and it is longer
than two characters. -/
def typoWords (rand : Nat → ℚ) (sample : Nat → List Nat)
    (pick : Nat → Nat → Nat) (prob : ℚ) (words : List (List Char)) :
    List (List Char) :=
  words.enum.map
    (fun kw =>
      if rand kw.1 < prob ∧ kw.2.length > 2 then
        applyTypos (pick kw.1) 0 (sample kw.1) kw.2
      else kw.2)

/-- Embedding of `typo_transform` (utils.py lines 110-126).  `rand k` models
the `random.random()` drawn for the `k`-th word, `sample k` the index list
produced by `random.sample` for that word, and `pick k j` the choice oracle
for its `j`-th typo; every concrete execution of the source corresponds to
one choice of these oracles. -/
def typo_transform (rand : Nat → ℚ) (sample : Nat → List Nat)
    (pick : Nat → Nat → Nat) (prob : ℚ) (sentence : List Char) : List Char :=
  joinSpace (typoWords rand sample pick prob (pySplit sentence))

/-- Realizability of the sampling oracle: what `random.sample(range(n),
min(num_typos, n))` guarantees for each word of the tokenized sentence. -/
def ValidSample (sample : Nat → List Nat) (words : List (List Char)) : Prop :=
  ∀ k, k < words.length →
    (sample k).Nodup ∧
    (∀ i ∈ sample k, i < (words.getD k []).length) ∧
    (sample k).length =
      min (num_typos (words.getD k []).length) (words.getD k []).length

/-- Python `str.lower()` on a word (ASCII folding). -/
def lowerWord (w : List Char) : List Char := w.map lowerChar

/-- Python `lemma.name().replace('_', ' ')`. -/
def underscoreToSpace (w : List Char) : List Char :=
  w.map (fun c => if c = '_' then ' ' else c)

/-- Per-token body of `synonym_replacement` (utils.py lines 60-78).
`stopW` models membership in the NLTK stop-word set, `alphaW` models
`str.isalpha()`, `syns w` models `wordnet.synsets(w)` as the list of lemma-name
lists, `rand k` the `random.random()` for token `k` and `pick k` the
`random.choice` oracle. -/
def synReplaceWord (stopW : List Char → Bool) (alphaW : List Char → Bool)
    (rand : Nat → ℚ) (syns : List Char → List (List (List Char)))
    (pick : Nat → Nat) (prob : ℚ) (k : Nat) (w : List Char) : List Char :=
  if stopW (lowerWord w) || !alphaW w then w
  else if rand k < prob then
    if syns w = [] then w
    else
      let allSyns := ((syns w).take 3).flatMap
        (fun synset =>
          (synset.filter (fun nm => !(lowerWord nm = lowerWord w))).map
            underscoreToSpace)
      if allSyns = [] then w else pyChoiceW (pick k) allSyns
  else w

/-- Token-list transformation of `synonym_replacement`. -/
def synWords (stopW : List Char → Bool) (alphaW : List Char → Bool)
    (rand : Nat → ℚ) (syns : List Char → List (List (List Char)))
    (pick : Nat → Nat) (prob : ℚ) (words : List (List Char)) :
    List (List Char) :=
  words.enum.map (fun kw => synReplaceWord stopW alphaW rand syns pick prob kw.1 kw.2)

/-- Embedding of `synonym_replacement` (utils.py lines 57-79); `tokenize`
models the external `nltk.word_tokenize`. -/
def synonym_replacement (stopW : List Char → Bool) (alphaW : List Char → Bool)
    (tokenize : List Char → List (List Char)) (rand : Nat → ℚ)
    (syns : List Char → List (List (List Char))) (pick : Nat → Nat)
    (prob : ℚ) (sentence : List Char) : List Char :=
  joinSpace (synWords stopW alphaW rand syns pick prob (tokenize sentence))

/-! Part 2: data loading (part-2-code/load_data.py). -/

/-- Padding sentinel (load_data.py line 15). -/
def PAD_IDX : Int := 0

/-- One processed example (load_data.py lines 99-128): encoder token ids and,
for train/dev, decoder token ids. -/
structure TokenizedExample where
  encoder_input_ids : List Int
  decoder_input_ids : Option (List Int)
deriving DecidableEq, Repr

/-- Parsed content of the schema JSON file: the keys of its `ents` object when
that field is present. -/
structure SchemaData where
  ents : Option (List (List Char))
deriving DecidableEq

/-- Python `', '.join(tables)`. -/
def joinCommaSp : List (List Char) → List Char
  | [] => []
  | [w] => w
  | w :: w2 :: ws => w ++ (", ".toList) ++ joinCommaSp (w2 :: ws)

/-- Embedding of `T5Dataset.load_schema_info` (load_data.py lines 36-62).  The
argument is `some d` when the schema file was read and parsed successfully and
`none` when any exception occurred; the boolean result records whether the
warning was printed. -/
def load_schema_info (readParse : Option SchemaData) : List Char × Bool :=
  match readParse with
  | some d => (("tables: ".toList) ++ joinCommaSp (d.ents.getD []), false)
  | none => (("tables: flight, airport, city, state, airline, fare".toList), true)

/-- Encoder input text construction (load_data.py lines 88-93 and 110-115);
`if schema_str:` is Python truthiness, false for `None` and for the empty
string. -/
def inputText (schemaStr : Option (List Char)) (nl : List Char) : List Char :=
  match schemaStr with
  | some s =>
    if s = [] then ("translate to SQL: ".toList) ++ nl
    else ("translate to SQL: ".toList) ++ nl ++ (" | schema: ".toList) ++ s
  | none => ("translate to SQL: ".toList) ++ nl

/-- Embedding of `T5Dataset.process_data` (load_data.py lines 64-130) after
file loading: `tokenize` models the T5 tokenizer, `nlLines`/`sqlLines` the
stripped lines of the `.nl`/`.sql` files.  The `assert` on line 107 is
embedded as an `Except.error`: on a length mismatch no dataset is produced. -/
def process_data (tokenize : List Char → List Int) (split : List Char)
    (schemaStr : Option (List Char)) (nlLines sqlLines : List (List Char)) :
    Except (List Char) (List TokenizedExample) :=
  if split = ("test".toList) then
    .ok (nlLines.map (fun nl => ⟨tokenize (inputText schemaStr nl), none⟩))
  else if nlLines.length = sqlLines.length then
    .ok ((nlLines.zip sqlLines).map
      (fun p => ⟨tokenize (inputText schemaStr p.1), some (tokenize p.2)⟩))
  else
    .error (("Mismatch in data sizes for ".toList) ++ split)

/-- Embedding of `torch.nn.utils.rnn.pad_sequence` with `batch_first=True`:
every sequence is right-padded with `padVal` to the length of the longest. -/
def pad_sequence (seqs : List (List Int)) (padVal : Int) : List (List Int) :=
  (seqs.map (fun s => s ++ List.replicate ((seqs.map List.length).foldr max 0 - s.length) padVal))

/-- The mask construction `(ids != PAD_IDX).long()` shared by both collate
functions (load_data.py lines 160 and 191). -/
def attentionMask (padded : List (List Int)) : List (List Int) :=
  padded.map (fun row => row.map (fun t => if t ≠ PAD_IDX then 1 else 0))

/-- Embedding of `normal_collate_fn` (load_data.py lines 138-170): padded
encoder ids, encoder mask, decoder labels with padding replaced by -100, and
the two `None` placeholders. -/
def normal_collate_fn (batch : List TokenizedExample) :
    List (List Int) × List (List Int) × List (List Int) × Option Unit × Option Unit :=
  let encoder_ids := pad_sequence (batch.map (fun b => b.encoder_input_ids)) PAD_IDX
  let encoder_mask := attentionMask encoder_ids
  let decoder_inputs := pad_sequence (batch.map (fun b => b.decoder_input_ids.getD [])) PAD_IDX
  let decoder_labels := decoder_inputs.map (List.map (fun t => if t = PAD_IDX then -100 else t))
  (encoder_ids, encoder_mask, decoder_labels, none, none)

/-- Embedding of `test_collate_fn` (load_data.py lines 172-192). -/
def test_collate_fn (batch : List TokenizedExample) :
    List (List Int) × List (List Int) × Option Unit :=
  let encoder_ids := pad_sequence (batch.map (fun b => b.encoder_input_ids)) PAD_IDX
  let encoder_mask := attentionMask encoder_ids
  (encoder_ids, encoder_mask, none)

/-- The ASCII alphabet, used to express "alphabetic token" concretely. -/
def asciiLetters : List Char :=
  ("abcdefghijklmnopqrstuvwxyzABCDEFGHIJKLMNOPQRSTUVWXYZ".toList)

/-! Metrics: record-level EM and F1. -/

/-- A database row, used only for equality comparison. -/
abbrev Row : Type := List Int

/-- Modelled from the spec: `compute_metrics` lives in the part-2 `utils.py`,
which is not among the provided sources (only its caller `train_t5.py` is).
Spec section 4.2: "Record-level F1/EM: ... EM requires identical sets" over
the returned row multisets. -/
def record_em (pred truth : Multiset Row) : Bool := pred = truth

/-- Modelled from the spec: record F1 is the "harmonic mean of
precision/recall over the row-set overlap between predicted and reference
query execution results" (spec glossary), with two empty result sets counting
as a perfect match. -/
def record_f1 (pred truth : Multiset Row) : ℚ :=
  if pred = 0 ∧ truth = 0 then 1
  else
    let inter := ((pred ∩ truth).card : ℚ)
    let p := inter / (pred.card : ℚ)
    let r := inter / (truth.card : ℚ)
    if p + r = 0 then 0 else 2 * p * r / (p + r)

/-! Helper lemmas. -/

theorem lowerChar_btick : lowerChar btick = btick := by decide

theorem lowerChar_ne_btick (c : Char) (h : c ≠ btick) : lowerChar c ≠ btick := by
  unfold lowerChar
  cases hf : caseFoldPairs.find? (fun p => p.1 = c) with
  | none => simpa using h
  | some p =>
    have hp : p ∈ caseFoldPairs := List.mem_of_find?_eq_some hf
    have hall : ∀ q ∈ caseFoldPairs, q.2 ≠ btick := by decide
    simpa using hall p hp

theorem sqlFence_eq_none (l : List Char) (h : btick ∉ l) : sqlFence l = none := by
  induction l with
  | nil => rfl
  | cons c cs ih =>
    have hc : c ≠ btick := fun hceq => h (hceq ▸ List.mem_cons_self c cs)
    have hm : headMatchCI [btick, btick, btick, 's', 'q', 'l'] (c :: cs) = false := by
      have hne : lowerChar btick ≠ lowerChar c := by
        rw [lowerChar_btick]
        exact fun heq => (lowerChar_ne_btick c hc) heq.symm
      simp [headMatchCI, hne]
    have htail : btick ∉ cs := fun hmem => h (List.mem_cons_of_mem c hmem)
    simp [sqlFence, hm, ih htail]

theorem anyFence_eq_none (l : List Char) (h : btick ∉ l) : anyFence l = none := by
  induction l with
  | nil => rfl
  | cons c cs ih =>
    have hc : c ≠ btick := fun hceq => h (hceq ▸ List.mem_cons_self c cs)
    have hm : headMatch [btick, btick, btick] (c :: cs) = false := by
      have hne : btick ≠ c := fun heq => hc heq.symm
      simp [headMatch, hne]
    have htail : btick ∉ cs := fun hmem => h (List.mem_cons_of_mem c hmem)
    simp [anyFence, hm, ih htail]

theorem takeUntilTerm_no_semi : ∀ l : List Char, (';' : Char) ∉ takeUntilTerm l := by
  intro l
  induction l with
  | nil => simp [takeUntilTerm]
  | cons c cs ih =>
    cases cs with
    | nil =>
      simp only [takeUntilTerm]
      split
      · simp
      · rename_i hcond
        simp only [Bool.or_eq_true, decide_eq_true_eq, not_or] at hcond
        simp [hcond.1]
        exact fun heq => hcond.1 heq.symm
    | cons c2 cs2 =>
      simp only [takeUntilTerm]
      split
      · simp
      · split
        · simp
        · rename_i h1 h2
          intro hmem
          rcases List.mem_cons.mp hmem with heq | hmem2
          · exact h1 heq.symm
          · exact ih hmem2

theorem mem_pyStrip {y : Char} {l : List Char} (h : y ∈ pyStrip l) : y ∈ l := by
  unfold pyStrip dropTrailingSpaces at h
  have h1 := List.mem_reverse.mp h
  have h2 := (List.dropWhile_sublist isSpace).subset h1
  have h3 := List.mem_reverse.mp h2
  exact (List.dropWhile_sublist isSpace).subset h3

theorem dropTrailingSpaces_cons_ne_nil {c : Char} (l : List Char)
    (hc : isSpace c = false) : dropTrailingSpaces (c :: l) ≠ [] := by
  unfold dropTrailingSpaces
  intro h
  have h0 := List.reverse_eq_nil_iff.mp h
  rw [List.dropWhile_eq_nil_iff] at h0
  have hcmem : c ∈ (c :: l).reverse := by simp
  have := h0 c hcmem
  rw [hc] at this
  exact Bool.false_ne_true this

/-! Claim C1. -/

/-- C1 fails as stated: the input "SELECT; ;" begins with `SELECT`, yet
`extract_sql_query` returns "SELECT;", which ends with a semicolon (pattern 4
of the source strips trailing semicolons before a final whitespace strip that
can re-expose an inner semicolon). -/
theorem extract_c1_counterexample :
    headMatch ("SELECT".toList) ("SELECT; ;".toList) = true ∧
    extract_sql_query ("SELECT; ;".toList) = ("SELECT;".toList) ∧
    (("SELECT;".toList)).getLast? = some ';' := by decide

/-- C1 (amended): for every input that begins with `SELECT` followed by a
whitespace character and contains no backtick, `extract_sql_query` returns a
non-empty string with no trailing semicolon. -/
theorem extract_c1_amended (c : Char) (rest : List Char) (hc : isSpace c = true)
    (hb : btick ∉ ('S' :: 'E' :: 'L' :: 'E' :: 'C' :: 'T' :: c :: rest)) :
    extract_sql_query ('S' :: 'E' :: 'L' :: 'E' :: 'C' :: 'T' :: c :: rest) ≠ [] ∧
    (extract_sql_query ('S' :: 'E' :: 'L' :: 'E' :: 'C' :: 'T' :: c :: rest)).getLast? ≠
      some ';' := by
  have h1 : sqlFence ('S' :: 'E' :: 'L' :: 'E' :: 'C' :: 'T' :: c :: rest) = none :=
    sqlFence_eq_none _ hb
  have h2 : anyFence ('S' :: 'E' :: 'L' :: 'E' :: 'C' :: 'T' :: c :: rest) = none :=
    anyFence_eq_none _ hb
  have hmci : headMatchCI ['s', 'e', 'l', 'e', 'c', 't']
      ('S' :: 'E' :: 'L' :: 'E' :: 'C' :: 'T' :: c :: rest) = true := by rfl
  have hsel : selectHere ('S' :: 'E' :: 'L' :: 'E' :: 'C' :: 'T' :: c :: rest) = true := by
    rw [selectHere, hmci]
    simp only [List.drop_succ_cons, List.drop_zero, headSpace, hc, Bool.and_self]
  have hspan : selectSpan ('S' :: 'E' :: 'L' :: 'E' :: 'C' :: 'T' :: c :: rest) =
      some (selectGroup ('S' :: 'E' :: 'L' :: 'E' :: 'C' :: 'T' :: c :: rest)) := by
    simp only [selectSpan, hsel, if_true]
  have hext : extract_sql_query ('S' :: 'E' :: 'L' :: 'E' :: 'C' :: 'T' :: c :: rest) =
      pyStrip (selectGroup ('S' :: 'E' :: 'L' :: 'E' :: 'C' :: 'T' :: c :: rest)) := by
    unfold extract_sql_query extractP3
    rw [h1, h2, hspan]
  have hgroup : selectGroup ('S' :: 'E' :: 'L' :: 'E' :: 'C' :: 'T' :: c :: rest) =
      'S' :: 'E' :: 'L' :: 'E' :: 'C' :: 'T' ::
        ((c :: rest).takeWhile isSpace ++ takeUntilTerm ((c :: rest).dropWhile isSpace)) := by
    rfl
  have hsemi : (';' : Char) ∉
      selectGroup ('S' :: 'E' :: 'L' :: 'E' :: 'C' :: 'T' :: c :: rest) := by
    rw [hgroup]
    intro hmem
    simp only [List.mem_cons, List.mem_append] at hmem
    rcases hmem with h | h | h | h | h | h | h
    · exact absurd h (by decide)
    · exact absurd h (by decide)
    · exact absurd h (by decide)
    · exact absurd h (by decide)
    · exact absurd h (by decide)
    · exact absurd h (by decide)
    rcases h with h | h
    · have hsp := List.mem_takeWhile_imp h
      exact absurd hsp (by decide)
    · exact takeUntilTerm_no_semi _ h
  have hstrip : pyStrip (selectGroup ('S' :: 'E' :: 'L' :: 'E' :: 'C' :: 'T' :: c :: rest)) =
      dropTrailingSpaces (selectGroup ('S' :: 'E' :: 'L' :: 'E' :: 'C' :: 'T' :: c :: rest)) := by
    rw [hgroup, pyStrip, List.dropWhile_cons,
      if_neg (show ¬ (isSpace 'S' = true) by decide)]
  constructor
  · rw [hext, hstrip, hgroup]
    exact dropTrailingSpaces_cons_ne_nil _ (by decide)
  · rw [hext]
    intro hlast
    have hmem : (';' : Char) ∈
        pyStrip (selectGroup ('S' :: 'E' :: 'L' :: 'E' :: 'C' :: 'T' :: c :: rest)) :=
      List.getElem?_mem (by rw [← List.getLast?_eq_getElem?]; exact hlast)
    exact hsemi (mem_pyStrip hmem)

/-- Witness for the amended C1 at the concrete input "SELECT x;". -/
theorem extract_c1_amended_witness :
    extract_sql_query ('S' :: 'E' :: 'L' :: 'E' :: 'C' :: 'T' :: ' ' :: ("x;".toList)) ≠ [] ∧
    (extract_sql_query
        ('S' :: 'E' :: 'L' :: 'E' :: 'C' :: 'T' :: ' ' :: ("x;".toList))).getLast? ≠
      some ';' :=
  extract_c1_amended ' ' ("x;".toList) (by decide) (by decide)

/-! Claim C2. -/

theorem takeUntilTicks_fence (mid post : List Char) (hmid : btick ∉ mid) :
    takeUntilTicks (mid ++ btick :: btick :: btick :: post) = some mid := by
  induction mid with
  | nil => rfl
  | cons m ms ih =>
    have hm : m ≠ btick := fun hmeq => hmid (hmeq ▸ List.mem_cons_self m ms)
    have hmt : headMatch [btick, btick, btick]
        (m :: (ms ++ btick :: btick :: btick :: post)) = false := by
      have hne : btick ≠ m := fun heq => hm heq.symm
      simp [headMatch, hne]
    have htail : btick ∉ ms := fun hmem => hmid (List.mem_cons_of_mem m hmem)
    simp only [List.cons_append]
    rw [takeUntilTicks, hmt]
    simp [ih htail]

theorem sqlFence_found (pre mid post : List Char)
    (hpre : btick ∉ pre) (hmid : btick ∉ mid) :
    sqlFence (pre ++ btick :: btick :: btick :: 's' :: 'q' :: 'l' ::
        (mid ++ btick :: btick :: btick :: post)) = some mid := by
  induction pre with
  | nil =>
    simp only [List.nil_append]
    rw [sqlFence]
    have hmt : headMatchCI [btick, btick, btick, 's', 'q', 'l']
        (btick :: btick :: btick :: 's' :: 'q' :: 'l' ::
          (mid ++ btick :: btick :: btick :: post)) = true := by rfl
    rw [hmt]
    simp only [if_true, List.drop_succ_cons, List.drop_zero]
    rw [takeUntilTicks_fence mid post hmid]
  | cons x xs ih =>
    have hx : x ≠ btick := fun hxeq => hpre (hxeq ▸ List.mem_cons_self x xs)
    have htail : btick ∉ xs := fun hmem => hpre (List.mem_cons_of_mem x hmem)
    have hmt : headMatchCI [btick, btick, btick, 's', 'q', 'l']
        (x :: (xs ++ btick :: btick :: btick :: 's' :: 'q' :: 'l' ::
          (mid ++ btick :: btick :: btick :: post))) = false := by
      have hne : lowerChar btick ≠ lowerChar x := by
        rw [lowerChar_btick]
        exact fun heq => (lowerChar_ne_btick x hx) heq.symm
      simp [headMatchCI, hne]
    simp only [List.cons_append]
    rw [sqlFence, hmt, if_neg (show ¬ (false = true) by decide)]
    exact ih htail

/-- C2: a response containing a SQL-tagged fenced block (with clean
surroundings: no backtick before the fence and none inside it) extracts to
exactly the fenced content, trimmed of surrounding whitespace, regardless of
everything before and after the block — pattern 1 takes priority. -/
theorem extract_c2_sql_fence (pre mid post : List Char)
    (hpre : btick ∉ pre) (hmid : btick ∉ mid) :
    extract_sql_query (pre ++ ("```sql".toList) ++ mid ++ ("```".toList) ++ post) =
      pyStrip mid := by
  have harg : pre ++ ("```sql".toList) ++ mid ++ ("```".toList) ++ post =
      pre ++ btick :: btick :: btick :: 's' :: 'q' :: 'l' ::
        (mid ++ btick :: btick :: btick :: post) := by
    simp [btick]
  rw [harg]
  unfold extract_sql_query
  rw [sqlFence_found pre mid post hpre hmid]

/-- Witness for C2 at a concrete response with text on both sides of the
fenced block. -/
theorem extract_c2_witness :
    extract_sql_query (("x ".toList) ++ ("```sql".toList) ++ (" SELECT 1 ".toList) ++
        ("```".toList) ++ (" y".toList)) = pyStrip (" SELECT 1 ".toList) :=
  extract_c2_sql_fence ("x ".toList) (" SELECT 1 ".toList) (" y".toList)
    (by decide) (by decide)

/-! Claim C3. -/

/-- C3: `extract_sql_query` is total — every input yields some output string;
in this embedding every code path of the source cascade is a defined value,
and no path raises. -/
theorem extract_sql_query_total (s : List Char) :
    ∃ out, extract_sql_query s = out := ⟨_, rfl⟩

/-! Claim C4 (record metrics, modelled from the spec). -/

/-- C4: when the predicted and ground-truth executions return identical row
multisets (row order is irrelevant in a multiset), record-EM reports a match
and record-F1 is 1. -/
theorem record_metrics_c4 (pred truth : Multiset Row) (h : pred = truth) :
    record_em pred truth = true ∧ record_f1 pred truth = 1 := by
  subst h
  refine ⟨by simp [record_em], ?_⟩
  unfold record_f1
  by_cases h0 : pred = 0
  · simp [h0]
  · have hinter : pred ∩ pred = pred := by
      rw [← Multiset.inf_eq_inter]
      exact inf_idem pred
    have hcard : ((Multiset.card pred : ℚ)) ≠ 0 := by
      rw [Nat.cast_ne_zero, Ne, Multiset.card_eq_zero]
      exact h0
    rw [if_neg (by simp [h0])]
    simp only [hinter]
    rw [div_self hcard]
    norm_num

/-- Witness for C4 on a concrete one-row record set. -/
theorem record_metrics_c4_witness :
    record_em {[(1 : Int)]} {[(1 : Int)]} = true ∧
    record_f1 {[(1 : Int)]} {[(1 : Int)]} = 1 :=
  record_metrics_c4 {[(1 : Int)]} {[(1 : Int)]} rfl

/-! Claim C7 (fatal mismatch of line counts). -/

/-- C7: for any non-test split, when the natural-language file and the SQL
file have different line counts, `process_data` aborts with the assertion
message and produces no dataset. -/
theorem process_data_c7 (tokenize : List Char → List Int) (split : List Char)
    (schemaStr : Option (List Char)) (nlLines sqlLines : List (List Char))
    (hsplit : split ≠ ("test".toList))
    (hlen : nlLines.length ≠ sqlLines.length) :
    process_data tokenize split schemaStr nlLines sqlLines =
      Except.error (("Mismatch in data sizes for ".toList) ++ split) := by
  unfold process_data
  rw [if_neg hsplit, if_neg hlen]

/-- Witness for C7: the train split with one NL line and no SQL line. -/
theorem process_data_c7_witness :
    process_data (fun _ => []) ("train".toList) none [("q".toList)] [] =
      Except.error (("Mismatch in data sizes for ".toList) ++ ("train".toList)) :=
  process_data_c7 (fun _ => []) ("train".toList) none [("q".toList)] []
    (by decide) (by decide)

/-! Claim C8 (schema fallback). -/

/-- C8: when the schema file cannot be read or parsed, `load_schema_info`
returns the hardcoded fallback schema string and emits a warning, raising no
exception. -/
theorem load_schema_info_c8 :
    load_schema_info none =
      (("tables: flight, airport, city, state, airline, fare".toList), true) := rfl

/-! Claim C9 (attention-mask invariant). -/

theorem maskRow_spec (row : List Int) : ∀ t, t < row.length →
    ((row.map (fun x => if x ≠ PAD_IDX then (1 : Int) else 0)).getD t 0 = 1 ↔
      row.getD t 0 ≠ PAD_IDX) := by
  induction row with
  | nil => intro t ht; simp at ht
  | cons x xs ih =>
    intro t ht
    cases t with
    | zero =>
      simp only [List.map_cons, List.getD_cons_zero]
      by_cases hz : x = PAD_IDX
      · simp [hz]
      · simp [hz]
    | succ n =>
      simp only [List.map_cons, List.getD_cons_succ]
      exact ih n (by simpa using ht)

theorem attentionMask_spec (padded : List (List Int)) (b t : Nat)
    (hb : b < padded.length) (ht : t < (padded.getD b []).length) :
    ((attentionMask padded).getD b []).getD t 0 = 1 ↔
      (padded.getD b []).getD t 0 ≠ PAD_IDX := by
  have hrow : (attentionMask padded).getD b [] =
      (padded.getD b []).map (fun x => if x ≠ PAD_IDX then 1 else 0) := by
    unfold attentionMask
    rw [List.getD_eq_getElem?_getD, List.getElem?_map,
      List.getElem?_eq_getElem hb, List.getD_eq_getElem?_getD,
      List.getElem?_eq_getElem hb]
    rfl
  rw [hrow]
  exact maskRow_spec (padded.getD b []) t ht

/-- C9: in every batch returned by `normal_collate_fn` or `test_collate_fn`,
the attention-mask entry at a position is 1 exactly when the padded token at
that position differs from the padding sentinel `PAD_IDX`. -/
theorem collate_mask_c9 (batch : List TokenizedExample) (b t : Nat)
    (hb : b < ((normal_collate_fn batch).1).length)
    (ht : t < (((normal_collate_fn batch).1).getD b []).length) :
    ((((normal_collate_fn batch).2.1).getD b []).getD t 0 = 1 ↔
      (((normal_collate_fn batch).1).getD b []).getD t 0 ≠ PAD_IDX) ∧
    ((((test_collate_fn batch).2.1).getD b []).getD t 0 = 1 ↔
      (((test_collate_fn batch).1).getD b []).getD t 0 ≠ PAD_IDX) :=
  ⟨attentionMask_spec _ b t hb ht, attentionMask_spec _ b t hb ht⟩

/-- Witness for C9 on a concrete two-example batch with genuine padding. -/
theorem collate_mask_c9_witness :
    ((((normal_collate_fn [⟨[5, 7], some [2]⟩, ⟨[3], none⟩]).2.1).getD 1 []).getD 1 0 = 1 ↔
      (((normal_collate_fn [⟨[5, 7], some [2]⟩, ⟨[3], none⟩]).1).getD 1 []).getD 1 0 ≠ PAD_IDX) ∧
    ((((test_collate_fn [⟨[5, 7], some [2]⟩, ⟨[3], none⟩]).2.1).getD 1 []).getD 1 0 = 1 ↔
      (((test_collate_fn [⟨[5, 7], some [2]⟩, ⟨[3], none⟩]).1).getD 1 []).getD 1 0 ≠ PAD_IDX) :=
  collate_mask_c9 [⟨[5, 7], some [2]⟩, ⟨[3], none⟩] 1 1 (by decide) (by decide)

/-! Lemmas about Python-style splitting and joining. -/

theorem pySplit_ok (l : List Char) :
    ∀ w ∈ pySplit l, w ≠ [] ∧ ∀ c ∈ w, isSpace c = false := by
  induction l using pySplit.induct with
  | case1 => simp [pySplit]
  | case2 c cs hsp ih =>
    rw [pySplit, if_pos hsp]
    exact ih
  | case3 c cs hsp ih =>
    rw [pySplit, if_neg hsp]
    intro w hw
    rcases List.mem_cons.mp hw with hw1 | hw2
    · subst hw1
      refine ⟨by simp, ?_⟩
      intro x hx
      rcases List.mem_cons.mp hx with hx1 | hx2
      · subst hx1
        exact Bool.eq_false_iff.mpr (fun habs => hsp habs)
      · have := List.mem_takeWhile_imp hx2
        simpa using this
    · exact ih w hw2

theorem pySplit_joinSpace : ∀ ws : List (List Char),
    (∀ w ∈ ws, w ≠ [] ∧ ∀ c ∈ w, isSpace c = false) →
    pySplit (joinSpace ws) = ws := by
  intro ws
  induction ws with
  | nil => intro _; simp [joinSpace, pySplit]
  | cons w tail ih =>
    intro hok
    obtain ⟨c, cs, rfl⟩ : ∃ c cs, w = c :: cs := by
      cases w with
      | nil => exact absurd rfl (hok [] (List.mem_cons_self _ _)).1
      | cons c cs => exact ⟨c, cs, rfl⟩
    have hw := hok (c :: cs) (List.mem_cons_self _ _)
    have hc : isSpace c = false := hw.2 c (List.mem_cons_self _ _)
    have hcs : ∀ x ∈ cs, (fun x => !isSpace x) x = true := by
      intro x hx
      simp [hw.2 x (List.mem_cons_of_mem c hx)]
    cases tail with
    | nil =>
      show pySplit (c :: cs) = [c :: cs]
      rw [pySplit, if_neg (by simp [hc])]
      rw [List.takeWhile_eq_self_iff.mpr hcs, List.dropWhile_eq_nil_iff.mpr hcs]
      simp [pySplit]
    | cons w2 tail2 =>
      show pySplit ((c :: cs) ++ ' ' :: joinSpace (w2 :: tail2)) = _
      rw [List.cons_append, pySplit, if_neg (by simp [hc])]
      rw [List.takeWhile_append_of_pos hcs, List.dropWhile_append_of_pos hcs]
      have htk : List.takeWhile (fun x => !isSpace x) (' ' :: joinSpace (w2 :: tail2)) =
          [] := by
        rw [List.takeWhile_cons]
        simp [isSpace]
      have hdr : List.dropWhile (fun x => !isSpace x) (' ' :: joinSpace (w2 :: tail2)) =
          ' ' :: joinSpace (w2 :: tail2) := by
        rw [List.dropWhile_cons]
        simp [isSpace]
      rw [htk, hdr, List.append_nil]
      have hsp : pySplit (' ' :: joinSpace (w2 :: tail2)) =
          pySplit (joinSpace (w2 :: tail2)) := by
        rw [pySplit, if_pos (by simp [isSpace])]
      rw [hsp, ih (fun u hu => hok u (List.mem_cons_of_mem _ hu))]

theorem enum_map_getD {α : Type} (f : Nat → α → α) (l : List α) (k : Nat) (d : α)
    (hk : k < l.length) :
    (l.enum.map (fun kw => f kw.1 kw.2)).getD k d = f k (l.getD k d) := by
  rw [List.getD_eq_getElem?_getD, List.getElem?_map, List.getElem?_enum,
    List.getElem?_eq_getElem hk]
  simp only [Option.map_some', Option.getD_some]
  rw [List.getD_eq_getElem l d hk]

/-! Claim C6. -/

/-- C6: `synonym_replacement` never touches a token that is a stop word or
fails Python's `isalpha` test: such a token reappears unchanged at its
position of the output word list, whatever the randomness, the probability
and the wordnet contents. -/
theorem synonym_replacement_c6 (stopW alphaW : List Char → Bool)
    (tokenize : List Char → List (List Char)) (rand : Nat → ℚ)
    (syns : List Char → List (List (List Char))) (pick : Nat → Nat) (prob : ℚ)
    (sentence : List Char) (k : Nat)
    (hk : k < (tokenize sentence).length)
    (hcond : stopW (lowerWord ((tokenize sentence).getD k [])) = true ∨
      alphaW ((tokenize sentence).getD k []) = false) :
    synonym_replacement stopW alphaW tokenize rand syns pick prob sentence =
      joinSpace (synWords stopW alphaW rand syns pick prob (tokenize sentence)) ∧
    (synWords stopW alphaW rand syns pick prob (tokenize sentence)).getD k [] =
      (tokenize sentence).getD k [] := by
  refine ⟨rfl, ?_⟩
  unfold synWords
  rw [enum_map_getD (fun i w => synReplaceWord stopW alphaW rand syns pick prob i w)
    (tokenize sentence) k [] hk]
  unfold synReplaceWord
  rcases hcond with h | h
  · rw [h]
    simp
  · rw [h]
    simp

/-- Witness for C6: a single stop-word token is preserved. -/
theorem synonym_replacement_c6_witness :
    synonym_replacement (fun _ => true) (fun _ => true) (fun _ => [['a']])
        (fun _ => 0) (fun _ => []) (fun _ => 0) 1 [] =
      joinSpace (synWords (fun _ => true) (fun _ => true) (fun _ => 0) (fun _ => [])
        (fun _ => 0) 1 [['a']]) ∧
    (synWords (fun _ => true) (fun _ => true) (fun _ => 0) (fun _ => []) (fun _ => 0) 1
        [['a']]).getD 0 [] = ([['a']] : List (List Char)).getD 0 [] :=
  synonym_replacement_c6 (fun _ => true) (fun _ => true) (fun _ => [['a']])
    (fun _ => 0) (fun _ => []) (fun _ => 0) 1 [] 0 (by decide) (Or.inl rfl)

/-! Lemmas about `applyTypos` and `typoWords`. -/

theorem kbPairs_facts : ∀ p ∈ kbPairs, p.2 ≠ [] ∧ ∀ x ∈ p.2, isSpace x = false := by
  decide

theorem pyChoice_mem (k : Nat) (l : List Char) (h : l ≠ []) : pyChoice k l ∈ l := by
  unfold pyChoice
  have hlen : 0 < l.length := List.length_pos.mpr h
  have hm : k % l.length < l.length := Nat.mod_lt _ hlen
  rw [List.getD_eq_getElem _ _ hm]
  exact List.getElem_mem hm

theorem typoAt_length (pickj : Nat) (chars : List Char) (idx : Nat) :
    (typoAt pickj chars idx).length = chars.length := by
  unfold typoAt
  split
  · exact List.length_set chars idx _
  · rfl

theorem typoAt_nonspace (pickj : Nat) (chars : List Char) (idx : Nat)
    (h : ∀ x ∈ chars, isSpace x = false) :
    ∀ x ∈ typoAt pickj chars idx, isSpace x = false := by
  unfold typoAt
  split
  · rename_i nbrs hkb
    intro x hx
    rcases List.mem_or_eq_of_mem_set hx with hx1 | hx2
    · exact h x hx1
    · subst hx2
      unfold keyboard_neighbors at hkb
      cases hf : kbPairs.find? (fun p => p.1 = lowerChar (chars.getD idx 'a')) with
      | none => rw [hf] at hkb; simp at hkb
      | some p =>
        rw [hf] at hkb
        simp only [Option.map_some', Option.some_inj] at hkb
        have hp := List.mem_of_find?_eq_some hf
        have hfact := kbPairs_facts p hp
        have hnb : nbrs ≠ [] := by rw [← hkb]; exact hfact.1
        have hmem := pyChoice_mem pickj nbrs hnb
        rw [← hkb]
        exact hfact.2 _ (hkb ▸ hmem)
  · exact h

theorem typoAt_getD_ne (pickj : Nat) (chars : List Char) (idx i : Nat) (d : Char)
    (h : idx ≠ i) : (typoAt pickj chars idx).getD i d = chars.getD i d := by
  unfold typoAt
  split
  · rw [List.getD_eq_getElem?_getD, List.getElem?_set_ne h,
      ← List.getD_eq_getElem?_getD]
  · rfl

theorem applyTypos_length (pick : Nat → Nat) :
    ∀ idxs j chars, (applyTypos pick j idxs chars).length = chars.length := by
  intro idxs
  induction idxs with
  | nil => intro j chars; rfl
  | cons i rest ih =>
    intro j chars
    simp only [applyTypos]
    rw [ih, typoAt_length]

theorem applyTypos_nonspace (pick : Nat → Nat) :
    ∀ idxs j chars, (∀ x ∈ chars, isSpace x = false) →
      ∀ x ∈ applyTypos pick j idxs chars, isSpace x = false := by
  intro idxs
  induction idxs with
  | nil => intro j chars h; exact h
  | cons i rest ih =>
    intro j chars h
    simp only [applyTypos]
    exact ih (j + 1) _ (typoAt_nonspace (pick j) chars i h)

theorem applyTypos_getD_of_not_mem (pick : Nat → Nat) :
    ∀ idxs j chars i d, i ∉ idxs →
      (applyTypos pick j idxs chars).getD i d = chars.getD i d := by
  intro idxs
  induction idxs with
  | nil => intro j chars i d _; rfl
  | cons a rest ih =>
    intro j chars i d h
    have ha : a ≠ i := fun heq => h (heq ▸ List.mem_cons_self a rest)
    have hrest : i ∉ rest := fun hm => h (List.mem_cons_of_mem a hm)
    simp only [applyTypos]
    rw [ih _ _ i d hrest, typoAt_getD_ne (pick j) chars a i d ha]

set_option maxHeartbeats 1000000 in
theorem letters_kb : ∀ c ∈ asciiLetters,
    (keyboard_neighbors (lowerChar c)).getD [] ≠ [] ∧
    ∀ x ∈ (keyboard_neighbors (lowerChar c)).getD [], x ≠ c := by decide

theorem applyTypos_first_alters (pick : Nat → Nat) (i0 : Nat) (rest : List Nat)
    (w : List Char) (hi0 : i0 < w.length) (hnr : i0 ∉ rest)
    (halpha : ∀ c ∈ w, c ∈ asciiLetters) :
    (applyTypos pick 0 (i0 :: rest) w).getD i0 'a' ≠ w.getD i0 'a' := by
  have hc : w.getD i0 'a' = w[i0] := List.getD_eq_getElem _ _ hi0
  have hcmem : w[i0] ∈ asciiLetters := halpha _ (List.getElem_mem hi0)
  have hfacts := letters_kb _ hcmem
  simp only [applyTypos]
  rw [applyTypos_getD_of_not_mem pick rest 1 _ i0 'a' hnr]
  unfold typoAt
  cases hkb : keyboard_neighbors (lowerChar (w.getD i0 'a')) with
  | none =>
    rw [hc] at hkb
    rw [hkb] at hfacts
    exact absurd rfl hfacts.1
  | some nbrs =>
    rw [hc] at hkb
    rw [hkb] at hfacts
    simp only [Option.getD_some] at hfacts
    have hset : i0 < (w.set i0 (pyChoice (pick 0) nbrs)).length := by
      rw [List.length_set]; exact hi0
    rw [List.getD_eq_getElem _ _ hset, List.getElem_set_self, hc]
    exact hfacts.2 _ (pyChoice_mem (pick 0) nbrs hfacts.1)

theorem typoWords_length (rand : Nat → ℚ) (sample : Nat → List Nat)
    (pick : Nat → Nat → Nat) (prob : ℚ) (words : List (List Char)) :
    (typoWords rand sample pick prob words).length = words.length := by
  unfold typoWords
  rw [List.length_map, List.enum_length]

theorem typoWords_ok (rand : Nat → ℚ) (sample : Nat → List Nat)
    (pick : Nat → Nat → Nat) (prob : ℚ) (words : List (List Char))
    (hok : ∀ w ∈ words, w ≠ [] ∧ ∀ c ∈ w, isSpace c = false) :
    ∀ w ∈ typoWords rand sample pick prob words,
      w ≠ [] ∧ ∀ c ∈ w, isSpace c = false := by
  intro w hw
  unfold typoWords at hw
  obtain ⟨kw, hkw, rfl⟩ := List.mem_map.mp hw
  have hw2 : kw.2 ∈ words := by
    have := List.mem_enum_iff_getElem?.mp hkw
    exact List.getElem?_mem this
  have hbase := hok kw.2 hw2
  by_cases hcond : rand kw.1 < prob ∧ kw.2.length > 2
  · rw [if_pos hcond]
    constructor
    · intro habs
      have hlen := applyTypos_length (pick kw.1) (sample kw.1) 0 kw.2
      rw [habs] at hlen
      have : kw.2 = [] := List.length_eq_zero.mp hlen.symm
      exact hbase.1 this
    · exact applyTypos_nonspace (pick kw.1) (sample kw.1) 0 kw.2 hbase.2
  · rw [if_neg hcond]
    exact hbase

theorem typoWords_getD (rand : Nat → ℚ) (sample : Nat → List Nat)
    (pick : Nat → Nat → Nat) (prob : ℚ) (words : List (List Char)) (k : Nat)
    (hk : k < words.length) :
    (typoWords rand sample pick prob words).getD k [] =
      if rand k < prob ∧ (words.getD k []).length > 2 then
        applyTypos (pick k) 0 (sample k) (words.getD k [])
      else words.getD k [] := by
  unfold typoWords
  exact enum_map_getD
    (fun i w => if rand i < prob ∧ w.length > 2 then applyTypos (pick i) 0 (sample i) w else w)
    words k [] hk

/-! Claim C10. -/

/-- C10: for every probability and every sampling and choice oracle (in
particular every realizable one), `typo_transform` preserves the number of
whitespace-separated words and the character length of each word: typos only
substitute characters, never insert or delete them. -/
theorem typo_transform_c10 (rand : Nat → ℚ) (sample : Nat → List Nat)
    (pick : Nat → Nat → Nat) (prob : ℚ) (s : List Char) :
    (pySplit (typo_transform rand sample pick prob s)).length = (pySplit s).length ∧
    ∀ k, ((pySplit (typo_transform rand sample pick prob s)).getD k []).length =
      ((pySplit s).getD k []).length := by
  have hok := pySplit_ok s
  have hnewok := typoWords_ok rand sample pick prob (pySplit s) hok
  have hsplit : pySplit (typo_transform rand sample pick prob s) =
      typoWords rand sample pick prob (pySplit s) := by
    unfold typo_transform
    exact pySplit_joinSpace _ hnewok
  have hlen : (typoWords rand sample pick prob (pySplit s)).length =
      (pySplit s).length := typoWords_length rand sample pick prob (pySplit s)
  refine ⟨by rw [hsplit, hlen], ?_⟩
  intro k
  rw [hsplit]
  by_cases hk : k < (pySplit s).length
  · rw [typoWords_getD rand sample pick prob (pySplit s) k hk]
    by_cases hcond : rand k < prob ∧ ((pySplit s).getD k []).length > 2
    · rw [if_pos hcond, applyTypos_length]
    · rw [if_neg hcond]
  · push_neg at hk
    have e1 : (typoWords rand sample pick prob (pySplit s)).getD k [] = [] := by
      rw [List.getD_eq_getElem?_getD, List.getElem?_eq_none (by rw [hlen]; omega)]
      rfl
    have e2 : (pySplit s).getD k [] = [] := by
      rw [List.getD_eq_getElem?_getD, List.getElem?_eq_none (by omega)]
      rfl
    rw [e1, e2]

/-! Claim C5. -/

/-- C5 fails as stated, in both halves.  With probability 0 the function is
`' '.join(sentence.split())`, which collapses the double space of "a  b": the
output "a b" differs from the input.  With probability 1 the eligible word
"123" (length 3 > 2) is returned unchanged, because no digit is a key of
`keyboard_neighbors`; the oracles used are realizable (random.random() = 0,
random.sample returning [0]). -/
theorem typo_transform_c5_counterexample :
    typo_transform (fun _ => 0) (fun _ => [0]) (fun _ _ => 0) 0 ("a  b".toList) =
      ("a b".toList) ∧
    ("a b".toList) ≠ ("a  b".toList) ∧
    typo_transform (fun _ => 0) (fun _ => [0]) (fun _ _ => 0) 1 ("123".toList) =
      ("123".toList) ∧
    ("123".toList).length > 2 := by
  have h1 : pySplit ("a  b".toList) = [['a'], ['b']] := by simp [pySplit, isSpace]
  have h2 : pySplit ("123".toList) = [['1', '2', '3']] := by simp [pySplit, isSpace]
  refine ⟨?_, by decide, ?_, by decide⟩
  · unfold typo_transform
    rw [h1]
    decide
  · unfold typo_transform
    rw [h2]
    decide

/-- C5 (amended): with probability 0, `typo_transform` returns the input words
rejoined with single spaces — the input itself whenever it was already
single-space separated with no surrounding whitespace; with probability 1,
every eligible word (length > 2) consisting of ASCII letters is altered. -/
theorem typo_transform_c5_amended (rand : Nat → ℚ) (sample : Nat → List Nat)
    (pick : Nat → Nat → Nat) (s : List Char)
    (hr : ∀ k, 0 ≤ rand k ∧ rand k < 1)
    (hs : ValidSample sample (pySplit s)) :
    typo_transform rand sample pick 0 s = joinSpace (pySplit s) ∧
    ∀ k, k < (pySplit s).length →
      ((pySplit s).getD k []).length > 2 →
      (∀ c ∈ (pySplit s).getD k [], c ∈ asciiLetters) →
      (pySplit (typo_transform rand sample pick 1 s)).getD k [] ≠
        (pySplit s).getD k [] := by
  constructor
  · unfold typo_transform typoWords
    have hcong : ∀ kw ∈ (pySplit s).enum,
        (if rand kw.1 < 0 ∧ kw.2.length > 2 then
          applyTypos (pick kw.1) 0 (sample kw.1) kw.2
        else kw.2) = kw.2 := by
      intro kw _
      rw [if_neg]
      intro hcon
      exact absurd hcon.1 (not_lt.mpr (hr kw.1).1)
    rw [List.map_congr_left hcong]
    exact congrArg joinSpace (List.enum_map_snd (pySplit s))
  · intro k hk hlen halpha
    have hvs := hs k hk
    have hslen := hvs.2.2
    have hnt : 0 < num_typos ((pySplit s).getD k []).length := Nat.le_max_left 1 _
    have hpos : 0 < (sample k).length := by
      rw [hslen, lt_min_iff]
      exact ⟨hnt, by omega⟩
    obtain ⟨i0, rest, hsk⟩ : ∃ i0 rest, sample k = i0 :: rest := by
      cases hsk : sample k with
      | nil => rw [hsk] at hpos; exact absurd hpos (by simp)
      | cons a b => exact ⟨a, b, rfl⟩
    have hi0 : i0 < ((pySplit s).getD k []).length :=
      hvs.2.1 i0 (by rw [hsk]; exact List.mem_cons_self _ _)
    have hnd : i0 ∉ rest := by
      have hnodup := hvs.1
      rw [hsk] at hnodup
      exact (List.nodup_cons.mp hnodup).1
    have hnewok := typoWords_ok rand sample pick 1 (pySplit s) (pySplit_ok s)
    have hsplit : pySplit (typo_transform rand sample pick 1 s) =
        typoWords rand sample pick 1 (pySplit s) := by
      unfold typo_transform
      exact pySplit_joinSpace _ hnewok
    rw [hsplit, typoWords_getD rand sample pick 1 (pySplit s) k hk,
      if_pos ⟨(hr k).2, hlen⟩, hsk]
    intro heq
    have halter := applyTypos_first_alters (pick k) i0 rest
      ((pySplit s).getD k []) hi0 hnd halpha
    rw [heq] at halter
    exact halter rfl

/-- Witness for the amended C5 on the sentence "abc" with realizable
oracles. -/
theorem typo_transform_c5_amended_witness :
    typo_transform (fun _ => 0) (fun _ => [0]) (fun _ _ => 0) 0 ("abc".toList) =
      joinSpace (pySplit ("abc".toList)) ∧
    (pySplit (typo_transform (fun _ => 0) (fun _ => [0]) (fun _ _ => 0) 1
        ("abc".toList))).getD 0 [] ≠ (pySplit ("abc".toList)).getD 0 [] := by
  have hsp : pySplit ("abc".toList) = [['a', 'b', 'c']] := by
    simp [pySplit, isSpace]
  have h := typo_transform_c5_amended (fun _ => 0) (fun _ => [0]) (fun _ _ => 0)
    ("abc".toList) (fun k => ⟨le_refl 0, by norm_num⟩)
    (by unfold ValidSample; rw [hsp]; decide)
  refine ⟨h.1, h.2 0 ?_ ?_ ?_⟩
  · rw [hsp]; decide
  · rw [hsp]; decide
  · rw [hsp]; decide

end Hw4

